/-
Verification of the Read4me TTS orchestration core.

Shallow embedding of:
  * src/generate.py        — `_split_sentences`, `_chunk_text`, `generate`
  * src/engines/registry.py — `register`, `get_engine`
  * src/engines/canonical.py — `CANONICAL`, `resolve`

Python strings are modelled as `List Char`; the whitespace class used by
`str.strip()` and by the regex `\s` is modelled by `isWS` (the ASCII
whitespace characters).  Fallible Python code (raising exceptions) is
modelled with `Except`; the side effects of `generate` (backend calls,
file writes) are recorded in an explicit event trace.
-/
import Mathlib

namespace Read4me

/-- ASCII whitespace, modelling Python's `str.strip` / regex `\s` class. -/
def isWS (c : Char) : Bool :=
  c = ' ' || c = '\t' || c = '\n' || c = '\r' || c = '\x0b' || c = '\x0c'

/-- Python `str.strip()`: remove leading and trailing whitespace. -/
def strip (l : List Char) : List Char :=
  (l.dropWhile isWS).rdropWhile isWS

theorem strip_nil : strip [] = [] := rfl

theorem strip_head?_not (l : List Char) (c : Char)
    (hc : (strip l).head? = some c) : isWS c = false := by
  have hpre : strip l <+: l.dropWhile isWS := List.rdropWhile_prefix _ _
  obtain ⟨t', ht'⟩ := hpre
  match hs : strip l with
  | [] => rw [hs] at hc; simp at hc
  | c' :: t =>
    rw [hs] at hc
    simp at hc
    rw [hs] at ht'
    have h0 : 0 < (l.dropWhile isWS).length := by
      rw [← ht']
      simp
    have := List.dropWhile_get_zero_not isWS l h0
    have hget : (l.dropWhile isWS).get ⟨0, h0⟩ = c' := by
      have : l.dropWhile isWS = c' :: (t ++ t') := by rw [← ht']; rfl
      simp [this]
    rw [hget] at this
    rw [← hc]
    simpa using this

theorem strip_getLast?_not (l : List Char) (c : Char)
    (hc : (strip l).getLast? = some c) : isWS c = false := by
  have hne : strip l ≠ [] := by
    intro h
    rw [h] at hc
    simp at hc
  have h2 : ¬ isWS ((strip l).getLast hne) = true :=
    List.rdropWhile_last_not isWS (l.dropWhile isWS) hne
  have e2 : (strip l).getLast? = some ((strip l).getLast hne) :=
    List.getLast?_eq_getLast _ hne
  rw [hc] at e2
  have e3 : (strip l).getLast hne = c := (Option.some.inj e2).symm
  rw [e3] at h2
  simpa using h2

theorem strip_eq_self (l : List Char) (c d : Char)
    (hc : l.head? = some c) (hc' : isWS c = false)
    (hd : l.getLast? = some d) (hd' : isWS d = false) :
    strip l = l := by
  cases l with
  | nil => simp at hc
  | cons a t =>
    obtain rfl : a = c := by simpa using hc
    have h1 : (a :: t).dropWhile isWS = a :: t := by
      rw [List.dropWhile_cons]
      simp [hc']
    unfold strip
    rw [h1, List.rdropWhile_eq_self_iff]
    intro hl
    have h3 := List.getLast?_eq_getLast (a :: t) hl
    rw [hd] at h3
    rw [← Option.some.inj h3]
    simp [hd']

theorem strip_idem (l : List Char) : strip (strip l) = strip l := by
  match hs : strip l with
  | [] => rfl
  | c :: t =>
    have hc : (strip l).head? = some c := by rw [hs]; rfl
    have hne : strip l ≠ [] := by rw [hs]; simp
    obtain ⟨d, hd⟩ : ∃ d, (strip l).getLast? = some d :=
      ⟨(strip l).getLast hne, List.getLast?_eq_getLast _ hne⟩
    have := strip_eq_self (strip l) c d hc (strip_head?_not l c hc)
      hd (strip_getLast?_not l d hd)
    rw [hs] at this
    exact this

/-- Joining two stripped nonempty strings with a single space yields a
stripped string: `(a + " " + b).strip() = a + " " + b`. -/
theorem strip_sp_join (a b : List Char) (ha : strip a = a) (ha' : a ≠ [])
    (hb : strip b = b) (hb' : b ≠ []) :
    strip (a ++ ' ' :: b) = a ++ ' ' :: b := by
  match a, ha' with
  | c :: t, _ =>
    obtain ⟨m, d, hmd⟩ := List.eq_nil_or_concat b |>.resolve_left hb'
    have hc : ((c :: t) ++ ' ' :: b).head? = some c := rfl
    have hcw : isWS c = false := by
      apply strip_head?_not (c :: t)
      rw [ha]; rfl
    have hdw : isWS d = false := by
      apply strip_getLast?_not b
      rw [hb, hmd]
      simp
    have hd : ((c :: t) ++ ' ' :: b).getLast? = some d := by
      have hre : (c :: t) ++ ' ' :: (m.concat d) = ((c :: t) ++ ' ' :: m) ++ [d] := by
        simp [List.concat_eq_append]
      rw [hmd, hre]
      exact List.getLast?_concat _
    exact strip_eq_self _ c d hc hcw hd hdw

/-- The regex class `[.!?]` of sentence-ending characters. -/
def isSentEnd (c : Char) : Bool := c = '.' || c = '!' || c = '?'

/-- Scanner for `re.split(r'(?<=[.!?])\s+', s)`.  `cur` holds the current
part reversed; a split happens at each maximal whitespace run whose
preceding character is `.`, `!` or `?` (the lookbehind).  While
`skipping` is set the scanner is inside the separator's whitespace run
(the greedy `\s+`). -/
def sentSplitAux : Bool → List Char → List Char → List (List Char)
  | _, cur, [] => [cur.reverse]
  | true, cur, c :: rest =>
    if isWS c then sentSplitAux true cur rest
    else sentSplitAux false (c :: cur) rest
  | false, cur, c :: rest =>
    if (match cur with | p :: _ => isSentEnd p | [] => false) && isWS c then
      cur.reverse :: sentSplitAux true [] rest
    else
      sentSplitAux false (c :: cur) rest

/-- `_split_sentences`: split on sentence boundaries, strip each part,
drop empty parts. -/
def splitSentences (text : List Char) : List (List Char) :=
  ((sentSplitAux false [] (strip text)).map strip).filter (fun p => !p.isEmpty)

/-- `chunks.append(current)` guarded by `if current:` in `_chunk_text`. -/
def emit (current : List Char) : List (List Char) :=
  if current.isEmpty then [] else [current]

/-- The sentence-accumulation loop of `_chunk_text`. -/
def chunkLoop (maxChars : Nat) :
    List (List Char) → List Char → List (List Char) → List (List Char)
  | [], current, chunks => chunks ++ emit current
  | s :: rest, current, chunks =>
    let candidate := if current.isEmpty then s else strip (current ++ ' ' :: s)
    if candidate.length ≤ maxChars then
      chunkLoop maxChars rest candidate chunks
    else
      chunkLoop maxChars rest s (chunks ++ emit current)

/-- `_chunk_text`: group sentences into chunks no longer than `maxChars`,
keeping a single over-long sentence whole. -/
def chunkText (text : List Char) (maxChars : Nat) : List (List Char) :=
  chunkLoop maxChars (splitSentences text) [] []

example : splitSentences "Hello world. This is a test.".data =
    ["Hello world.".data, "This is a test.".data] := by decide

example : chunkText "Hello world. This is a test.".data 800 =
    ["Hello world. This is a test.".data] := by decide

example : chunkText "Hello world. This is a test.".data 14 =
    ["Hello world.".data, "This is a test.".data] := by decide

example : chunkText "Hello there world. Hi.".data 5 =
    ["Hello there world.".data, "Hi.".data] := by decide

/-- Join a group of sentences with single spaces — the shape of a chunk
built by `_chunk_text`'s accumulation. -/
def joinSp : List (List Char) → List Char
  | [] => []
  | [s] => s
  | s :: s' :: rest => s ++ ' ' :: joinSp (s' :: rest)

theorem joinSp_append_single (g : List (List Char)) (s : List Char)
    (h : g ≠ []) : joinSp (g ++ [s]) = joinSp g ++ ' ' :: s := by
  induction g with
  | nil => exact absurd rfl h
  | cons x g ih =>
    cases g with
    | nil => rfl
    | cons y g' =>
      have hth := ih (by simp)
      simp only [List.cons_append] at hth ⊢
      simp only [joinSp]
      rw [hth]
      simp

theorem joinSp_stripped (g : List (List Char))
    (hg : ∀ s ∈ g, s ≠ [] ∧ strip s = s) (hne : g ≠ []) :
    joinSp g ≠ [] ∧ strip (joinSp g) = joinSp g := by
  induction g with
  | nil => exact absurd rfl hne
  | cons x g ih =>
    cases g with
    | nil =>
      have hx := hg x (by simp)
      exact ⟨hx.1, by rw [joinSp]; exact hx.2⟩
    | cons y g' =>
      have hx := hg x (by simp)
      have htail := ih (fun s hs => hg s (by simp [hs])) (by simp)
      rw [joinSp]
      constructor
      · simp [hx.1]
      · exact strip_sp_join x (joinSp (y :: g')) hx.2 hx.1 htail.2 htail.1

theorem chunkLoop_acc (m : Nat) (ss : List (List Char)) :
    ∀ (cur : List Char) (chunks : List (List Char)),
    chunkLoop m ss cur chunks = chunks ++ chunkLoop m ss cur [] := by
  induction ss with
  | nil => intro cur chunks; simp [chunkLoop]
  | cons s rest ih =>
    intro cur chunks
    simp only [chunkLoop]
    by_cases hc : (if cur.isEmpty then s else strip (cur ++ ' ' :: s)).length ≤ m
    · simp only [hc, if_pos]
      exact ih _ chunks
    · simp only [hc, if_neg, not_false_iff]
      rw [ih s (chunks ++ emit cur), ih s ([] ++ emit cur)]
      simp

/-- Key invariant of `_chunk_text`'s loop: starting from the partial group
`g` (whose space-join is `current`), the emitted chunks partition the
remaining sentences into nonempty consecutive groups, each joined with
single spaces, each within the budget or a single sentence. -/
theorem chunkLoop_groups (m : Nat) (ss : List (List Char)) :
    ∀ (g : List (List Char)),
    (∀ s ∈ ss, s ≠ [] ∧ strip s = s) →
    (∀ s ∈ g, s ≠ [] ∧ strip s = s) →
    (g ≠ [] → (joinSp g).length ≤ m ∨ g.length = 1) →
    ∃ groups : List (List (List Char)),
      (∀ h ∈ groups, h ≠ []) ∧
      groups.flatten = g ++ ss ∧
      chunkLoop m ss (joinSp g) [] = groups.map joinSp ∧
      (∀ h ∈ groups, (joinSp h).length ≤ m ∨ h.length = 1) := by
  induction ss with
  | nil =>
    intro g _ hg hlen
    by_cases hge : g = []
    · subst hge
      exact ⟨[], by simp, by simp, by simp [chunkLoop, emit, joinSp], by simp⟩
    · refine ⟨[g], by simp [hge], by simp, ?_, by simpa using hlen hge⟩
      have hj := joinSp_stripped g hg hge
      simp [chunkLoop, emit, List.isEmpty_iff, hj.1]
  | cons s rest ih =>
    intro g hss hg hlen
    have hs := hss s (by simp)
    have hrest : ∀ x ∈ rest, x ≠ [] ∧ strip x = x :=
      fun x hx => hss x (by simp [hx])
    by_cases hge : g = []
    · subst hge
      have hempty : (joinSp ([] : List (List Char))).isEmpty = true := rfl
      have hsingle : ∀ x ∈ [s], x ≠ [] ∧ strip x = x := by
        intro x hx; simp at hx; subst hx; exact hs
      have hlen1 : ([s] : List (List Char)) ≠ [] →
          (joinSp [s]).length ≤ m ∨ ([s] : List (List Char)).length = 1 := by
        intro _; right; rfl
      obtain ⟨groups, hne, hjoin, hrun, hbound⟩ := ih [s] hrest hsingle hlen1
      refine ⟨groups, hne, by simpa using hjoin, ?_, hbound⟩
      simp only [chunkLoop, hempty, if_pos, joinSp]
      by_cases hc : s.length ≤ m
      · simpa [hc, joinSp] using hrun
      · simp only [hc, if_neg, not_false_iff, emit, List.nil_append, hempty]
        simpa [joinSp] using hrun
    · have hj := joinSp_stripped g hg hge
      have hempty : (joinSp g).isEmpty = false := by
        simp [List.isEmpty_iff, hj.1]
      have hcand : strip (joinSp g ++ ' ' :: s) = joinSp (g ++ [s]) := by
        rw [strip_sp_join _ _ hj.2 hj.1 hs.2 hs.1, ← joinSp_append_single g s hge]
      by_cases hc : (strip (joinSp g ++ ' ' :: s)).length ≤ m
      · have happ : ∀ x ∈ g ++ [s], x ≠ [] ∧ strip x = x := by
          intro x hx
          rcases List.mem_append.mp hx with h | h
          · exact hg x h
          · simp at h; subst h; exact hs
        have hlen2 : g ++ [s] ≠ [] →
            (joinSp (g ++ [s])).length ≤ m ∨ (g ++ [s]).length = 1 := by
          intro _; left; rw [← hcand]; exact hc
        obtain ⟨groups, hne, hjoin, hrun, hbound⟩ := ih (g ++ [s]) hrest happ hlen2
        refine ⟨groups, hne, by simpa using hjoin, ?_, hbound⟩
        simp only [chunkLoop, hempty, Bool.false_eq_true, if_neg, not_false_iff]
        rw [if_pos hc, hcand]
        exact hrun
      · have hsingle : ∀ x ∈ [s], x ≠ [] ∧ strip x = x := by
          intro x hx; simp at hx; subst hx; exact hs
        have hlen1 : ([s] : List (List Char)) ≠ [] →
            (joinSp [s]).length ≤ m ∨ ([s] : List (List Char)).length = 1 := by
          intro _; right; rfl
        obtain ⟨groups, hne, hjoin, hrun, hbound⟩ := ih [s] hrest hsingle hlen1
        refine ⟨g :: groups, ?_, ?_, ?_, ?_⟩
        · intro h hh
          rcases List.mem_cons.mp hh with h1 | h1
          · subst h1; exact hge
          · exact hne h h1
        · simp [hjoin]
        · simp only [chunkLoop, hempty, Bool.false_eq_true, if_neg, not_false_iff]
          rw [if_neg hc, chunkLoop_acc]
          simp only [emit, hempty, if_neg, Bool.false_eq_true, not_false_iff,
            List.nil_append, List.map]
          rw [show chunkLoop m rest s [] = chunkLoop m rest (joinSp [s]) [] from rfl, hrun]
          simp
        · intro h hh
          rcases List.mem_cons.mp hh with h1 | h1
          · subst h1; exact hlen hge
          · exact hbound h h1

theorem splitSentences_mem (text : List Char) (s : List Char)
    (hs : s ∈ splitSentences text) : s ≠ [] ∧ strip s = s := by
  unfold splitSentences at hs
  rw [List.mem_filter] at hs
  obtain ⟨hmap, hne⟩ := hs
  rw [List.mem_map] at hmap
  obtain ⟨p, _, rfl⟩ := hmap
  refine ⟨?_, strip_idem p⟩
  intro h
  rw [h] at hne
  simp at hne

/-- C1: for every text and positive budget, the chunks produced by
`_chunk_text` are exactly the space-joins of a partition of the sentence
list into nonempty consecutive groups (so rejoining the chunks with
single spaces reproduces the sentence sequence with nothing dropped,
duplicated or reordered), and every chunk fits the budget or is a single
oversized sentence kept whole. -/
theorem chunk_text_partitions (text : List Char) (budget : Nat)
    (hb : 0 < budget) :
    ∃ groups : List (List (List Char)),
      (∀ g ∈ groups, g ≠ []) ∧
      groups.flatten = splitSentences text ∧
      chunkText text budget = groups.map joinSp ∧
      ∀ g ∈ groups, (joinSp g).length ≤ budget ∨
        (g.length = 1 ∧ budget < (joinSp g).length) := by
  obtain ⟨groups, h1, h2, h3, h4⟩ :=
    chunkLoop_groups budget (splitSentences text) []
      (fun s hs => splitSentences_mem text s hs) (by simp) (by simp)
  refine ⟨groups, h1, by simpa using h2, h3, ?_⟩
  intro g hg
  rcases h4 g hg with h | h
  · exact Or.inl h
  · by_cases hle : (joinSp g).length ≤ budget
    · exact Or.inl hle
    · exact Or.inr ⟨h, Nat.lt_of_not_le hle⟩

/-- Witness for C1 at a concrete text and budget. -/
theorem chunk_text_partitions_witness :
    0 < 6 ∧
    ∃ groups : List (List (List Char)),
      (∀ g ∈ groups, g ≠ []) ∧
      groups.flatten = splitSentences "Hi there. Yes.".data ∧
      chunkText "Hi there. Yes.".data 6 = groups.map joinSp ∧
      ∀ g ∈ groups, (joinSp g).length ≤ 6 ∨
        (g.length = 1 ∧ 6 < (joinSp g).length) :=
  ⟨by decide, chunk_text_partitions "Hi there. Yes.".data 6 (by decide)⟩

/-- Abstract engine instance: instances are distinguished by a creation
counter, modelling Python object identity. -/
structure EngineInstance where
  instId : Nat
deriving DecidableEq

/-- The state of src/engines/registry.py: the names registered in
`_CLASSES` (in insertion order), the `_INSTANCES` cache, and a counter
supplying fresh instance identities. -/
structure RegistryState where
  classes : List String
  instances : List (String × EngineInstance)
  nextId : Nat
deriving DecidableEq

/-- `register(cls)`: add the class name (idempotent on the key set). -/
def registerEngine (name : String) (r : RegistryState) : RegistryState :=
  if name ∈ r.classes then r else { r with classes := r.classes ++ [name] }

/-- KeyError raised by `get_engine`, carrying the unknown name and the
`Available: {available}` list interpolated into its message. -/
inductive RegError
  | notFound (name : String) (available : List String)
deriving DecidableEq

/-- `get_engine(name)`: raise for an unknown name; otherwise return the
cached singleton instance, constructing it on first access. -/
def getEngine (name : String) (r : RegistryState) :
    Except RegError EngineInstance × RegistryState :=
  if name ∈ r.classes then
    match r.instances.lookup name with
    | some inst => (.ok inst, r)
    | Option.none =>
      let inst : EngineInstance := ⟨r.nextId⟩
      (.ok inst,
       { r with instances := (name, inst) :: r.instances, nextId := r.nextId + 1 })
  else
    (.error (.notFound name r.classes), r)

/-- The registry right after module import: the two built-in adapters
registered, no instance constructed yet. -/
def initialRegistry : RegistryState :=
  registerEngine "chatterbox-turbo"
    (registerEngine "chatterbox" { classes := [], instances := [], nextId := 0 })

/-- C6: `get_engine` on an unregistered name raises an error enumerating
exactly the currently registered names, and leaves the registry (in
particular the instance cache) unchanged. -/
theorem get_engine_unknown (name : String) (r : RegistryState)
    (h : name ∉ r.classes) :
    getEngine name r = (.error (.notFound name r.classes), r) := by
  unfold getEngine
  simp [h]

/-- Witness for C6 on the initial registry. -/
theorem get_engine_unknown_witness :
    "missing" ∉ initialRegistry.classes ∧
    getEngine "missing" initialRegistry =
      (.error (.notFound "missing" ["chatterbox", "chatterbox-turbo"]),
       initialRegistry) :=
  ⟨by decide, get_engine_unknown "missing" initialRegistry (by decide)⟩

/-- C7: for a registered name, `get_engine` constructs the instance on
first access (cache miss) and caches it; any further call returns the
identical cached instance and leaves the registry unchanged. -/
theorem lookup_cons_self {β : Type} (k : String) (b : β)
    (es : List (String × β)) : ((k, b) :: es).lookup k = some b := by
  rw [List.lookup_cons]
  simp

theorem get_engine_singleton (name : String) (r : RegistryState)
    (h : name ∈ r.classes) :
    ∃ inst r',
      getEngine name r = (.ok inst, r') ∧
      getEngine name r' = (.ok inst, r') ∧
      r'.instances.lookup name = some inst ∧
      (r.instances.lookup name = Option.none →
        r'.instances = (name, inst) :: r.instances) ∧
      (∀ i0, r.instances.lookup name = some i0 → r' = r ∧ inst = i0) := by
  cases hl : r.instances.lookup name with
  | some i0 =>
    refine ⟨i0, r, ?_, ?_, hl, ?_, ?_⟩
    · unfold getEngine
      simp [h, hl]
    · unfold getEngine
      simp [h, hl]
    · intro hc
      simp at hc
    · intro i1 h1
      exact ⟨rfl, Option.some.inj h1⟩
  | none =>
    refine ⟨⟨r.nextId⟩,
      { r with instances := (name, ⟨r.nextId⟩) :: r.instances,
               nextId := r.nextId + 1 }, ?_, ?_, ?_, fun _ => rfl, ?_⟩
    · unfold getEngine
      simp [h, hl]
    · unfold getEngine
      simp [h, lookup_cons_self]
    · exact lookup_cons_self name ⟨r.nextId⟩ r.instances
    · intro i0 h0
      simp at h0

/-- Witness for C7 on the initial registry. -/
theorem get_engine_singleton_witness :
    "chatterbox" ∈ initialRegistry.classes ∧
    ∃ inst r',
      getEngine "chatterbox" initialRegistry = (.ok inst, r') ∧
      getEngine "chatterbox" r' = (.ok inst, r') ∧
      r'.instances.lookup "chatterbox" = some inst ∧
      (initialRegistry.instances.lookup "chatterbox" = Option.none →
        r'.instances = ("chatterbox", inst) :: initialRegistry.instances) ∧
      (∀ i0, initialRegistry.instances.lookup "chatterbox" = some i0 →
        r' = initialRegistry ∧ inst = i0) :=
  ⟨by decide, get_engine_singleton "chatterbox" initialRegistry (by decide)⟩

/-- A Python parameter value (`Any` in the dataclass): float, int, string
or `None`.  Floats are modelled exactly as rationals. -/
inductive PValue
  | f (q : ℚ)
  | i (z : ℤ)
  | s (v : String)
  | none
deriving DecidableEq

/-- The frozen `CanonicalParam` dataclass of src/engines/canonical.py. -/
structure CanonicalParam where
  id : String
  label : String
  description : String
  type : String
  default : PValue := .none
  min_val : Option ℚ := Option.none
  max_val : Option ℚ := Option.none
deriving DecidableEq

/-- The `CANONICAL` table, modelled as an insertion-ordered association
list (a Python dict keyed by canonical id). -/
def CANONICAL : List (String × CanonicalParam) :=
  [ ("speed",
     { id := "speed", label := "Speed",
       description := "Speaking rate  (1.0 = normal, 0.5 = half, 2.0 = double)",
       type := "float", default := .f 1,
       min_val := some (1/10), max_val := some 3 }),
    ("pitch",
     { id := "pitch", label := "Pitch",
       description := "Voice pitch offset in semitones  (0 = unchanged)",
       type := "float", default := .f 0,
       min_val := some (-12), max_val := some 12 }),
    ("volume",
     { id := "volume", label := "Volume",
       description := "Output loudness multiplier  (1.0 = unchanged)",
       type := "float", default := .f 1,
       min_val := some 0, max_val := some 2 }),
    ("emotion",
     { id := "emotion", label := "Emotion",
       description := "Emotional expressiveness / exaggeration  (0 – 1.5)",
       type := "float", default := .f (1/2),
       min_val := some 0, max_val := some (3/2) }),
    ("temperature",
     { id := "temperature", label := "Temperature",
       description := "Sampling randomness — higher = more varied output  (0.1 – 1.5)",
       type := "float", default := .f (4/5),
       min_val := some (1/10), max_val := some (3/2) }),
    ("guidance",
     { id := "guidance", label := "Guidance",
       description := "Classifier-free guidance strength  (0 = off, 1 = strong)",
       type := "float", default := .f (1/2),
       min_val := some 0, max_val := some 1 }),
    ("seed",
     { id := "seed", label := "Seed",
       description := "Random seed for reproducible output  (-1 = random each time)",
       type := "int", default := .i (-1) }),
    ("language",
     { id := "language", label := "Language",
       description := "Language / model variant",
       type := "select", default := .s "English" }) ]

/-- `resolve(param_canonical)`: `None` and unknown ids yield `None`;
a known id yields the stored record (`CANONICAL.get`). -/
def resolve (param_canonical : Option String) : Option CanonicalParam :=
  match param_canonical with
  | Option.none => Option.none
  | some id => CANONICAL.lookup id

theorem lookup_eq_none_of_forall {β : Type} (l : List (String × β)) (k : String)
    (h : ∀ p, (k, p) ∉ l) : l.lookup k = Option.none := by
  induction l with
  | nil => rfl
  | cons e t ih =>
    rw [List.lookup_cons]
    by_cases hk : k = e.1
    · exact absurd (by rw [hk]; exact List.mem_cons_self _ _) (h e.2)
    · have : (k == e.1) = false := by simpa using hk
      simp only [this]
      exact ih (fun p hp => h p (List.mem_cons_of_mem _ hp))

theorem lookup_of_mem_nodupkeys {β : Type} (l : List (String × β))
    (hnd : (l.map Prod.fst).Nodup) (k : String) (v : β)
    (h : (k, v) ∈ l) : l.lookup k = some v := by
  induction l with
  | nil => simp at h
  | cons e t ih =>
    rw [List.map_cons, List.nodup_cons] at hnd
    rw [List.lookup_cons]
    rcases List.mem_cons.mp h with h1 | h1
    · rw [← h1]
      simp
    · have hk : k ≠ e.1 := by
        intro hke
        apply hnd.1
        rw [← hke]
        exact List.mem_map_of_mem Prod.fst h1
      have hbeq : (k == e.1) = false := by simpa using hk
      simp only [hbeq]
      exact ih hnd.2 h1

/-- C8: `resolve` is pure and total — `resolve(None)` is not-found, any id
absent from the table is not-found, and any id present in the table
resolves to exactly the stored record. -/
theorem resolve_spec :
    resolve Option.none = Option.none ∧
    (∀ id : String, (∀ p, (id, p) ∉ CANONICAL) →
      resolve (some id) = Option.none) ∧
    (∀ id p, (id, p) ∈ CANONICAL → resolve (some id) = some p) := by
  refine ⟨rfl, ?_, ?_⟩
  · intro id h
    exact lookup_eq_none_of_forall CANONICAL id h
  · intro id p h
    exact lookup_of_mem_nodupkeys CANONICAL (by decide) id p h

/-- Witness for C8: an unknown id and a known id. -/
theorem resolve_spec_witness :
    resolve Option.none = Option.none ∧
    resolve (some "nope") = Option.none ∧
    resolve (some "seed") = some
      { id := "seed", label := "Seed",
        description := "Random seed for reproducible output  (-1 = random each time)",
        type := "int", default := .i (-1) } :=
  ⟨resolve_spec.1,
   resolve_spec.2.1 "nope" (by intro p hp; simp [CANONICAL] at hp),
   resolve_spec.2.2 "seed" _ (by simp [CANONICAL])⟩

/-- Observable behaviour of one engine adapter inside `generate`.
`generateAudio i chunk` is the result of the `i`-th (1-based) call to
`engine.generate_audio`: `none` models a raised exception, `some (len,
sr)` a buffer of `len` samples (after normalisation to a 1-D float array)
at sample rate `sr`. -/
structure EngineSpec where
  requiresVoiceFile : Bool
  chunkChars : Nat
  loadOk : Bool
  setVoiceOk : Bool
  generateAudio : Nat → List Char → Option (Nat × Nat)

/-- Side effects of `generate`, in order of occurrence. -/
inductive Event
  | makeDirs (dir : List Char)
  | loadCall
  | setVoiceCall
  | genAudioCall (i : Nat)
  | fileWrite (path : List Char) (samples : Nat) (sr : Nat)
deriving DecidableEq

/-- The error kinds `generate` can raise (the spec's taxonomy):
ValueError for empty text, KeyError from the registry, FileNotFoundError
for a missing voice, and any exception out of `load` / `set_voice` /
`generate_audio`. -/
inductive GenError
  | validation
  | engineNotFound
  | voiceNotFound
  | engineFailure
deriving DecidableEq

/-- The per-chunk loop of `generate`: `i` is the 1-based chunk index,
`n` the total chunk count, `sr` the current value of the Python `sr`
variable (initially 24000, overwritten by every chunk).  Yields the
collected `audio_parts` buffer lengths — with `int(sr * 0.3)` samples of
silence (modelled exactly as `3 * sr / 10`) appended after every chunk
but the last — and the final value of `sr`. -/
def synthLoop (gen : Nat → List Char → Option (Nat × Nat)) (n : Nat) :
    Nat → Nat → List (List Char) →
    Except GenError (List Nat × Nat) × List Event
  | _, sr, [] => (.ok ([], sr), [])
  | i, _, chunk :: rest =>
    match gen i chunk with
    | Option.none => (.error .engineFailure, [.genAudioCall i])
    | some (len, sr') =>
      match synthLoop gen n (i + 1) sr' rest with
      | (.ok (tail, srF), evs) =>
        (.ok ((if i < n then [len, 3 * sr' / 10] else [len]) ++ tail, srF),
         .genAudioCall i :: evs)
      | (.error e, evs) => (.error e, .genAudioCall i :: evs)

/-- ASCII case folding, modelling `str.lower` on the characters relevant
to the `".wav"` suffix test. -/
def toLowerCh (c : Char) : Char :=
  if 'A' ≤ c ∧ c ≤ 'Z' then Char.ofNat (c.toNat + 32) else c

/-- `fname.lower().endswith(".wav")`. -/
def endsWithWav (fname : List Char) : Bool :=
  (".wav".data).isSuffixOf (fname.map toLowerCh)

/-- Output-filename normalisation in `generate`:
`fname = (output_filename or "output.wav")`, then append `".wav"` unless
the lowercased name already ends in it. -/
def normFname (outputFilename : Option (List Char)) : List Char :=
  let fname := match outputFilename with
    | Option.none => "output.wav".data
    | some f => if f.isEmpty then "output.wav".data else f
  if endsWithWav fname then fname else fname ++ ".wav".data

/-- The voice-file guard `not voice_path or not os.path.isfile(voice_path)`. -/
def voiceMissing (isFile : List Char → Bool) :
    Option (List Char) → Bool
  | Option.none => true
  | some p => p.isEmpty || !isFile p

/-- The events `generate` records before entering the synthesis loop:
directory creation, `load`, and `set_voice` when the engine needs a
voice. -/
def preEvents (engine : EngineSpec) (outputDir : List Char) : List Event :=
  [.makeDirs outputDir, .loadCall] ++
    (if engine.requiresVoiceFile then [.setVoiceCall] else [])

/-- `generate` (src/generate.py).  The engine registry lookup is
`engines`, `os.path.isfile` is `isFile`, and
`os.path.abspath(os.path.join(dir, name))` is the abstract `absJoin`.
Returns the outcome (output path or raised error) together with the trace
of backend calls and file-system effects. -/
def generate (engines : String → Option EngineSpec)
    (isFile : List Char → Bool)
    (absJoin : List Char → List Char → List Char)
    (text : List Char) (voicePath : Option (List Char))
    (outputDir : List Char) (engineName : String)
    (outputFilename : Option (List Char)) :
    Except GenError (List Char) × List Event :=
  let text := strip text
  if text.isEmpty then (.error .validation, [])
  else
    match engines engineName with
    | Option.none => (.error .engineNotFound, [])
    | some engine =>
      if engine.requiresVoiceFile && voiceMissing isFile voicePath then
        (.error .voiceNotFound, [])
      else
        let outPath := absJoin outputDir (normFname outputFilename)
        if !engine.loadOk then
          (.error .engineFailure, [.makeDirs outputDir, .loadCall])
        else if engine.requiresVoiceFile && !engine.setVoiceOk then
          (.error .engineFailure,
           [.makeDirs outputDir, .loadCall, .setVoiceCall])
        else
          let pre : List Event := preEvents engine outputDir
          let chunks := chunkText text engine.chunkChars
          match synthLoop engine.generateAudio chunks.length 1 24000 chunks with
          | (.error e, evs) => (.error e, pre ++ evs)
          | (.ok (parts, sr), evs) =>
            (.ok outPath, pre ++ evs ++ [.fileWrite outPath parts.sum sr])

/-- Per-call behaviour of the total stub backend: every chunk yields a
1-second buffer at 24000 Hz. -/
def stubGen : Nat → List Char → Nat × Nat := fun _ _ => (24000, 24000)

/-- A total stub backend: every chunk synthesises a 1-second buffer at
24000 Hz. -/
def stubEngine : EngineSpec :=
  { requiresVoiceFile := false, chunkChars := 10, loadOk := true,
    setVoiceOk := true, generateAudio := fun i c => some (stubGen i c) }

/-- Per-call behaviour of a backend whose second chunk comes back at
48000 Hz instead of 24000 Hz. -/
def mmGen : Nat → List Char → Nat × Nat :=
  fun i _ => (24000, if i = 1 then 24000 else 48000)

/-- A stub backend whose second chunk comes back at 48000 Hz instead of
24000 Hz. -/
def mismatchEngine : EngineSpec :=
  { requiresVoiceFile := false, chunkChars := 5, loadOk := true,
    setVoiceOk := true, generateAudio := fun i c => some (mmGen i c) }

def stubEngines : String → Option EngineSpec :=
  fun n => if n = "chatterbox" then some stubEngine else Option.none

def noFile : List Char → Bool := fun _ => false

def slashJoin : List Char → List Char → List Char :=
  fun d f => d ++ '/' :: f

/-- C4: empty or whitespace-only text raises ValueError immediately: the
result is the validation error and the trace is empty, so no backend
method (`load`, `set_voice`, `generate_audio`) was invoked. -/
theorem generate_empty_text (engines : String → Option EngineSpec)
    (isFile : List Char → Bool) (absJoin : List Char → List Char → List Char)
    (text : List Char) (voicePath : Option (List Char))
    (outputDir : List Char) (engineName : String)
    (outputFilename : Option (List Char))
    (h : strip text = []) :
    generate engines isFile absJoin text voicePath outputDir engineName
      outputFilename = (.error .validation, []) := by
  unfold generate
  simp [h]

/-- Witness for C4 on whitespace-only text. -/
theorem generate_empty_text_witness :
    strip "   ".data = [] ∧
    generate stubEngines noFile slashJoin "   ".data Option.none
      "out".data "chatterbox" Option.none = (.error .validation, []) :=
  ⟨by decide,
   generate_empty_text stubEngines noFile slashJoin "   ".data Option.none
     "out".data "chatterbox" Option.none (by decide)⟩

/-- C5: against a voice-requiring backend, a missing voice path (None,
empty, or not an existing file) raises FileNotFoundError with an empty
trace — `load`, `set_voice` and `generate_audio` are never called. -/
theorem generate_missing_voice (engines : String → Option EngineSpec)
    (isFile : List Char → Bool) (absJoin : List Char → List Char → List Char)
    (text : List Char) (voicePath : Option (List Char))
    (outputDir : List Char) (engineName : String)
    (outputFilename : Option (List Char)) (engine : EngineSpec)
    (hne : strip text ≠ [])
    (heng : engines engineName = some engine)
    (hreq : engine.requiresVoiceFile = true)
    (hmiss : voiceMissing isFile voicePath = true) :
    generate engines isFile absJoin text voicePath outputDir engineName
      outputFilename = (.error .voiceNotFound, []) := by
  have h0 : (strip text).isEmpty = false := by
    cases hs : strip text with
    | nil => exact absurd hs hne
    | cons a t => rfl
  unfold generate
  simp [h0, heng, hreq, hmiss]

/-- A voice-requiring variant of the stub backend. -/
def voiceStubEngine : EngineSpec := { stubEngine with requiresVoiceFile := true }

def voiceStubEngines : String → Option EngineSpec :=
  fun n => if n = "cb" then some voiceStubEngine else Option.none

/-- Witness for C5: a voice-requiring stub with no voice file on disk. -/
theorem generate_missing_voice_witness :
    strip "Hello.".data ≠ [] ∧
    voiceStubEngines "cb" = some voiceStubEngine ∧
    voiceStubEngine.requiresVoiceFile = true ∧
    voiceMissing noFile (some "voice.mp3".data) = true ∧
    generate voiceStubEngines noFile slashJoin "Hello.".data
      (some "voice.mp3".data) "out".data "cb" Option.none =
      (.error .voiceNotFound, []) :=
  ⟨by decide, rfl, rfl, by decide,
   generate_missing_voice voiceStubEngines noFile slashJoin "Hello.".data
     (some "voice.mp3".data) "out".data "cb" Option.none voiceStubEngine
     (by decide) rfl rfl (by decide)⟩

theorem synthLoop_events (gen : Nat → List Char → Option (Nat × Nat))
    (n : Nat) :
    ∀ (chunks : List (List Char)) (i sr : Nat), ∃ k,
      (synthLoop gen n i sr chunks).2 =
        (List.range' i k).map Event.genAudioCall := by
  intro chunks
  induction chunks with
  | nil => intro i sr; exact ⟨0, rfl⟩
  | cons c rest ih =>
    intro i sr
    unfold synthLoop
    cases hg : gen i c with
    | none =>
      refine ⟨1, ?_⟩
      simp
    | some p =>
      obtain ⟨len, sr'⟩ := p
      obtain ⟨k, hk⟩ := ih (i + 1) sr'
      refine ⟨k + 1, ?_⟩
      rw [List.range'_succ]
      cases hr : synthLoop gen n (i + 1) sr' rest with
      | mk res evs =>
        rw [hr] at hk
        cases res with
        | ok pr =>
          obtain ⟨tail, srF⟩ := pr
          simp only []
          rw [hr]
          simpa using hk
        | error e =>
          simp only []
          rw [hr]
          simpa using hk

theorem preEvents_no_gen (engine : EngineSpec) (outputDir : List Char)
    (i : Nat) : Event.genAudioCall i ∉ preEvents engine outputDir := by
  unfold preEvents
  by_cases h : engine.requiresVoiceFile <;> simp [h]

theorem preEvents_no_write (engine : EngineSpec) (outputDir : List Char)
    (p : List Char) (s r : Nat) :
    Event.fileWrite p s r ∉ preEvents engine outputDir := by
  unfold preEvents
  by_cases h : engine.requiresVoiceFile <;> simp [h]

theorem preEvents_nodup (engine : EngineSpec) (outputDir : List Char) :
    (preEvents engine outputDir).Nodup := by
  unfold preEvents
  by_cases h : engine.requiresVoiceFile <;> simp [h]

theorem genEvents_nodup (i k : Nat) :
    ((List.range' i k).map Event.genAudioCall).Nodup := by
  apply List.Nodup.map
  · intro a b hab
    injection hab
  · exact List.nodup_range' i k

theorem genEvents_no_write (i k : Nat) (p : List Char) (s r : Nat) :
    Event.fileWrite p s r ∉ (List.range' i k).map Event.genAudioCall := by
  intro h
  rw [List.mem_map] at h
  obtain ⟨j, _, hj⟩ := h
  injection hj

/-- Shape of every trace `generate` can produce: a file write appears in
the trace only when the request succeeded (and then it is the single
final event, at the returned path), and no traced call is ever repeated. -/
theorem generate_trace_shape (engines : String → Option EngineSpec)
    (isFile : List Char → Bool) (absJoin : List Char → List Char → List Char)
    (text : List Char) (voicePath : Option (List Char))
    (outputDir : List Char) (engineName : String)
    (outputFilename : Option (List Char)) :
    (∀ p s r,
      Event.fileWrite p s r ∈
        (generate engines isFile absJoin text voicePath outputDir engineName
          outputFilename).2 →
      (generate engines isFile absJoin text voicePath outputDir engineName
          outputFilename).1 = .ok p) ∧
    (generate engines isFile absJoin text voicePath outputDir engineName
      outputFilename).2.Nodup := by
  unfold generate
  by_cases h0 : (strip text).isEmpty
  · simp [h0]
  · simp only [h0, Bool.false_eq_true, if_neg, not_false_iff, Bool.not_eq_true]
    cases heng : engines engineName with
    | none => simp
    | some engine =>
      simp only
      by_cases hv : engine.requiresVoiceFile && voiceMissing isFile voicePath
      · simp [hv]
      · simp only [hv, Bool.false_eq_true, if_neg, not_false_iff]
        by_cases hl : engine.loadOk
        · simp only [hl, Bool.not_true, Bool.false_eq_true, if_neg,
            not_false_iff]
          by_cases hsv : engine.requiresVoiceFile && !engine.setVoiceOk
          · simp [hsv]
          · simp only [hsv, Bool.false_eq_true, if_neg, not_false_iff]
            obtain ⟨k, hk⟩ := synthLoop_events engine.generateAudio
              (chunkText (strip text) engine.chunkChars).length
              (chunkText (strip text) engine.chunkChars) 1 24000
            cases hr : synthLoop engine.generateAudio
                (chunkText (strip text) engine.chunkChars).length 1 24000
                (chunkText (strip text) engine.chunkChars) with
            | mk res evs =>
              rw [hr] at hk
              simp only at hk
              subst hk
              cases res with
              | error e =>
                simp only []
                constructor
                · intro p s r hmem
                  rcases List.mem_append.mp hmem with hm | hm
                  · exact absurd hm (preEvents_no_write engine outputDir p s r)
                  · exact absurd hm (genEvents_no_write 1 k p s r)
                · apply List.Nodup.append (preEvents_nodup engine outputDir)
                    (genEvents_nodup 1 k)
                  intro a ha hb
                  rw [List.mem_map] at hb
                  obtain ⟨j, _, rfl⟩ := hb
                  exact preEvents_no_gen engine outputDir j ha
              | ok pr =>
                obtain ⟨parts, sr⟩ := pr
                simp only []
                constructor
                · intro p s r hmem
                  simp only [List.mem_append] at hmem
                  rcases hmem with (hm | hm) | hm
                  · exact absurd hm (preEvents_no_write engine outputDir p s r)
                  · exact absurd hm (genEvents_no_write 1 k p s r)
                  · simp at hm
                    simp [hm.1]
                · rw [List.append_assoc]
                  apply List.Nodup.append (preEvents_nodup engine outputDir)
                  · apply List.Nodup.append (genEvents_nodup 1 k) (by simp)
                    intro a ha hb
                    simp at hb
                    subst hb
                    exact genEvents_no_write 1 k _ _ _ ha
                  · intro a ha hb
                    rcases List.mem_append.mp hb with hm | hm
                    · rw [List.mem_map] at hm
                      obtain ⟨j, _, rfl⟩ := hm
                      exact preEvents_no_gen engine outputDir j ha
                    · simp at hm
                      subst hm
                      exact preEvents_no_write engine outputDir _ _ _ ha
        · simp [hl]

/-- C3: if any step of the pipeline raises, `generate` propagates that
error; the trace contains no file-write event (no partial output file)
and no event occurs twice (nothing is retried). -/
theorem generate_error_aborts (engines : String → Option EngineSpec)
    (isFile : List Char → Bool) (absJoin : List Char → List Char → List Char)
    (text : List Char) (voicePath : Option (List Char))
    (outputDir : List Char) (engineName : String)
    (outputFilename : Option (List Char)) (e : GenError) (evs : List Event)
    (h : generate engines isFile absJoin text voicePath outputDir engineName
      outputFilename = (.error e, evs)) :
    (∀ p s r, Event.fileWrite p s r ∉ evs) ∧ evs.Nodup := by
  obtain ⟨h1, h2⟩ := generate_trace_shape engines isFile absJoin text
    voicePath outputDir engineName outputFilename
  rw [h] at h1 h2
  refine ⟨?_, h2⟩
  intro p s r hm
  have := h1 p s r hm
  simp at this

/-- A stub backend whose synthesis always raises. -/
def failEngine : EngineSpec :=
  { requiresVoiceFile := false, chunkChars := 10, loadOk := true,
    setVoiceOk := true, generateAudio := fun _ _ => Option.none }

/-- Witness for C3: a request whose first synthesis call raises. -/
theorem generate_error_aborts_witness :
    generate (fun _ => some failEngine) noFile slashJoin "Hello.".data
      Option.none "out".data "x" Option.none =
      (.error .engineFailure,
       [.makeDirs "out".data, .loadCall, .genAudioCall 1]) ∧
    ((∀ p s r, Event.fileWrite p s r ∉
        ([.makeDirs "out".data, .loadCall, .genAudioCall 1] : List Event)) ∧
      ([.makeDirs "out".data, .loadCall,
        .genAudioCall 1] : List Event).Nodup) :=
  ⟨rfl,
   generate_error_aborts (fun _ => some failEngine) noFile slashJoin
     "Hello.".data Option.none "out".data "x" Option.none
     .engineFailure _ rfl⟩

theorem generate_ok_path (engines : String → Option EngineSpec)
    (isFile : List Char → Bool) (absJoin : List Char → List Char → List Char)
    (text : List Char) (voicePath : Option (List Char))
    (outputDir : List Char) (engineName : String)
    (outputFilename : Option (List Char)) (p : List Char) (evs : List Event)
    (h : generate engines isFile absJoin text voicePath outputDir engineName
      outputFilename = (.ok p, evs)) :
    p = absJoin outputDir (normFname outputFilename) := by
  have key : ∀ q, (generate engines isFile absJoin text voicePath outputDir
      engineName outputFilename).1 = .ok q →
      q = absJoin outputDir (normFname outputFilename) := by
    unfold generate
    by_cases h0 : (strip text).isEmpty
    · simp [h0]
    · simp only [h0, Bool.false_eq_true, if_neg, not_false_iff]
      cases heng : engines engineName with
      | none => simp
      | some engine =>
        simp only
        by_cases hv : engine.requiresVoiceFile && voiceMissing isFile voicePath
        · simp [hv]
        · simp only [hv, Bool.false_eq_true, if_neg, not_false_iff]
          by_cases hl : engine.loadOk
          · simp only [hl, Bool.not_true, Bool.false_eq_true, if_neg,
              not_false_iff]
            by_cases hsv : engine.requiresVoiceFile && !engine.setVoiceOk
            · simp [hsv]
            · simp only [hsv, Bool.false_eq_true, if_neg, not_false_iff]
              cases hr : synthLoop engine.generateAudio
                  (chunkText (strip text) engine.chunkChars).length 1 24000
                  (chunkText (strip text) engine.chunkChars) with
              | mk res evs2 =>
                cases res with
                | error e => simp
                | ok pr =>
                  obtain ⟨parts, sr⟩ := pr
                  simp only []
                  intro q hq
                  exact (Except.ok.inj hq).symm
          · simp [hl]
  have h1 : (generate engines isFile absJoin text voicePath outputDir
      engineName outputFilename).1 = .ok p := by rw [h]
  exact key p h1

/-- The value of the Python `sr` variable after the loop: seeded with
`sr`, overwritten by every chunk, so it ends as the last chunk's rate. -/
def lastRate (gen : Nat → List Char → Nat × Nat) :
    Nat → Nat → List (List Char) → Nat
  | _, sr, [] => sr
  | i, _, c :: rest => lastRate gen (i + 1) (gen i c).2 rest

/-- The `audio_parts` buffer lengths collected by the loop: each chunk's
buffer, with `int(sr*0.3)` samples of silence at that chunk's own rate
after every chunk except the last. -/
def expectedParts (gen : Nat → List Char → Nat × Nat) :
    Nat → List (List Char) → List Nat
  | _, [] => []
  | i, [c] => [(gen i c).1]
  | i, c :: c' :: rest =>
    (gen i c).1 :: (3 * (gen i c).2 / 10) :: expectedParts gen (i + 1) (c' :: rest)

/-- Just the synthesised buffer lengths, without the silences. -/
def bufLens (gen : Nat → List Char → Nat × Nat) :
    Nat → List (List Char) → List Nat
  | _, [] => []
  | i, c :: rest => (gen i c).1 :: bufLens gen (i + 1) rest

theorem synthLoop_ok (gen : Nat → List Char → Nat × Nat) (n : Nat) :
    ∀ (chunks : List (List Char)) (i sr : Nat), i + chunks.length = n + 1 →
    synthLoop (fun j c => some (gen j c)) n i sr chunks =
      (.ok (expectedParts gen i chunks, lastRate gen i sr chunks),
       (List.range' i chunks.length).map Event.genAudioCall) := by
  intro chunks
  induction chunks with
  | nil => intro i sr _; rfl
  | cons c rest ih =>
    intro i sr h
    have hlen : (i + 1) + rest.length = n + 1 := by
      simp at h
      omega
    unfold synthLoop
    rcases hgc : gen i c with ⟨len, sr'⟩
    simp only []
    rw [ih (i + 1) sr' hlen]
    simp only []
    cases rest with
    | nil =>
      have hin : ¬ i < n := by simp at h; omega
      simp [expectedParts, lastRate, hgc, hin]
    | cons c' rest' =>
      have hin : i < n := by simp at h; omega
      simp [expectedParts, lastRate, hgc, hin, List.range'_succ]

theorem lastRate_getLast (gen : Nat → List Char → Nat × Nat) :
    ∀ (chunks : List (List Char)) (i sr : Nat) (h : chunks ≠ []),
    lastRate gen i sr chunks =
      (gen (i + chunks.length - 1) (chunks.getLast h)).2 := by
  intro chunks
  induction chunks with
  | nil => intro i sr h; exact absurd rfl h
  | cons c rest ih =>
    intro i sr h
    cases rest with
    | nil => simp [lastRate]
    | cons c' rest' =>
      rw [show lastRate gen i sr (c :: c' :: rest') =
        lastRate gen (i + 1) (gen i c).2 (c' :: rest') from rfl]
      rw [ih (i + 1) (gen i c).2 (by simp)]
      have harg : i + 1 + (c' :: rest').length - 1 =
          i + (c :: c' :: rest').length - 1 := by
        simp only [List.length_cons]
        omega
      have hgl : (c :: c' :: rest').getLast h =
          (c' :: rest').getLast (by simp) := List.getLast_cons (by simp)
      rw [harg, hgl]

theorem lastRate_uniform (gen : Nat → List Char → Nat × Nat) (sr0 : Nat)
    (huni : ∀ i c, (gen i c).2 = sr0) :
    ∀ (chunks : List (List Char)) (i sr : Nat), chunks ≠ [] →
    lastRate gen i sr chunks = sr0 := by
  intro chunks
  induction chunks with
  | nil => intro i sr h; exact absurd rfl h
  | cons c rest ih =>
    intro i sr _
    cases rest with
    | nil => simpa [lastRate] using huni i c
    | cons c' rest' => exact ih (i + 1) (gen i c).2 (by simp)

theorem expectedParts_sum (gen : Nat → List Char → Nat × Nat) (sr0 : Nat)
    (huni : ∀ i c, (gen i c).2 = sr0) :
    ∀ (chunks : List (List Char)) (i : Nat),
    (expectedParts gen i chunks).sum =
      (bufLens gen i chunks).sum + (chunks.length - 1) * (3 * sr0 / 10) := by
  intro chunks
  induction chunks with
  | nil => intro i; simp [expectedParts, bufLens]
  | cons c rest ih =>
    intro i
    cases rest with
    | nil => simp [expectedParts, bufLens]
    | cons c' rest' =>
      have := ih (i + 1)
      simp only [expectedParts, bufLens, List.sum_cons, this, huni i c,
        List.length_cons]
      simp only [Nat.add_sub_cancel]
      ring

/-- The full behaviour of `generate` on a request that reaches the
synthesis loop and on which every `generate_audio` call succeeds. -/
theorem generate_success_run (engines : String → Option EngineSpec)
    (isFile : List Char → Bool) (absJoin : List Char → List Char → List Char)
    (text : List Char) (voicePath : Option (List Char))
    (outputDir : List Char) (engineName : String)
    (outputFilename : Option (List Char)) (engine : EngineSpec)
    (gen : Nat → List Char → Nat × Nat)
    (hne : strip text ≠ [])
    (heng : engines engineName = some engine)
    (hgen : engine.generateAudio = fun i c => some (gen i c))
    (hload : engine.loadOk = true)
    (hsv : engine.setVoiceOk = true)
    (hv : (engine.requiresVoiceFile && voiceMissing isFile voicePath) = false) :
    generate engines isFile absJoin text voicePath outputDir engineName
      outputFilename =
      (.ok (absJoin outputDir (normFname outputFilename)),
       preEvents engine outputDir ++
         (List.range' 1
           (chunkText (strip text) engine.chunkChars).length).map
             Event.genAudioCall ++
         [Event.fileWrite (absJoin outputDir (normFname outputFilename))
           (expectedParts gen 1
             (chunkText (strip text) engine.chunkChars)).sum
           (lastRate gen 1 24000
             (chunkText (strip text) engine.chunkChars))]) := by
  have h0 : (strip text).isEmpty = false := by
    cases hs : strip text with
    | nil => exact absurd hs hne
    | cons a t => rfl
  unfold generate
  simp only [h0, Bool.false_eq_true, if_neg, not_false_iff, heng, hv, hload,
    hsv, Bool.not_true, Bool.and_false]
  rw [hgen, synthLoop_ok gen
    (chunkText (strip text) engine.chunkChars).length
    (chunkText (strip text) engine.chunkChars) 1 24000 (by omega)]

/-- C2 counterexample: a backend returning 24000 Hz for the first chunk
and 48000 Hz for the second is not rejected — the request succeeds, and
the file is written at 48000 Hz (the last chunk's rate), not at the
first chunk's 24000 Hz. -/
theorem generate_rate_mismatch_unchecked :
    generate (fun _ => some mismatchEngine) noFile slashJoin "Hi. Yo.".data
      Option.none "out".data "x" Option.none =
      (.ok "out/output.wav".data,
       [.makeDirs "out".data, .loadCall, .genAudioCall 1, .genAudioCall 2,
        .fileWrite "out/output.wav".data 55200 48000]) ∧
    (mmGen 1 "Hi.".data).2 = 24000 ∧ (mmGen 2 "Yo.".data).2 = 48000 ∧
    (48000 : Nat) ≠ 24000 :=
  ⟨rfl, rfl, rfl, by decide⟩

/-- C2 amended: `generate` performs no cross-chunk sample-rate check —
chunks may return differing rates without any error — and the output
file is written at the rate returned for the last chunk (the Python `sr`
variable is overwritten by every chunk), not at the first chunk's rate. -/
theorem generate_writes_last_rate (engines : String → Option EngineSpec)
    (isFile : List Char → Bool) (absJoin : List Char → List Char → List Char)
    (text : List Char) (voicePath : Option (List Char))
    (outputDir : List Char) (engineName : String)
    (outputFilename : Option (List Char)) (engine : EngineSpec)
    (gen : Nat → List Char → Nat × Nat)
    (hne : strip text ≠ [])
    (heng : engines engineName = some engine)
    (hgen : engine.generateAudio = fun i c => some (gen i c))
    (hload : engine.loadOk = true)
    (hsv : engine.setVoiceOk = true)
    (hv : (engine.requiresVoiceFile && voiceMissing isFile voicePath) = false) :
    generate engines isFile absJoin text voicePath outputDir engineName
      outputFilename =
      (.ok (absJoin outputDir (normFname outputFilename)),
       preEvents engine outputDir ++
         (List.range' 1
           (chunkText (strip text) engine.chunkChars).length).map
             Event.genAudioCall ++
         [Event.fileWrite (absJoin outputDir (normFname outputFilename))
           (expectedParts gen 1
             (chunkText (strip text) engine.chunkChars)).sum
           (lastRate gen 1 24000
             (chunkText (strip text) engine.chunkChars))]) ∧
    ∀ (h : chunkText (strip text) engine.chunkChars ≠ []),
      lastRate gen 1 24000 (chunkText (strip text) engine.chunkChars) =
        (gen (chunkText (strip text) engine.chunkChars).length
          ((chunkText (strip text) engine.chunkChars).getLast h)).2 := by
  refine ⟨generate_success_run engines isFile absJoin text voicePath
    outputDir engineName outputFilename engine gen hne heng hgen hload hsv
    hv, ?_⟩
  intro h
  rw [lastRate_getLast gen (chunkText (strip text) engine.chunkChars)
    1 24000 h]
  rw [show 1 + (chunkText (strip text) engine.chunkChars).length - 1 =
    (chunkText (strip text) engine.chunkChars).length from by omega]

/-- Witness for the amended C2 on the rate-mismatching stub. -/
theorem generate_writes_last_rate_witness :
    strip "Hi. Yo.".data ≠ [] ∧
    (generate (fun _ => some mismatchEngine) noFile slashJoin "Hi. Yo.".data
      Option.none "out".data "x" Option.none =
      (.ok (slashJoin "out".data (normFname Option.none)),
       preEvents mismatchEngine "out".data ++
         (List.range' 1
           (chunkText (strip "Hi. Yo.".data) mismatchEngine.chunkChars).length).map
             Event.genAudioCall ++
         [Event.fileWrite (slashJoin "out".data (normFname Option.none))
           (expectedParts mmGen 1
             (chunkText (strip "Hi. Yo.".data) mismatchEngine.chunkChars)).sum
           (lastRate mmGen 1 24000
             (chunkText (strip "Hi. Yo.".data) mismatchEngine.chunkChars))]) ∧
     ∀ (h : chunkText (strip "Hi. Yo.".data) mismatchEngine.chunkChars ≠ []),
       lastRate mmGen 1 24000
           (chunkText (strip "Hi. Yo.".data) mismatchEngine.chunkChars) =
         (mmGen (chunkText (strip "Hi. Yo.".data) mismatchEngine.chunkChars).length
           ((chunkText (strip "Hi. Yo.".data) mismatchEngine.chunkChars).getLast h)).2) :=
  ⟨by decide,
   generate_writes_last_rate (fun _ => some mismatchEngine) noFile slashJoin
     "Hi. Yo.".data Option.none "out".data "x" Option.none mismatchEngine
     mmGen (by decide) rfl rfl rfl rfl rfl⟩

/-- C9: for a request whose backend returns a single request-wide rate
`sr0`, the loop appends `int(sr0 * 0.3)` samples of silence after every
chunk except the last, so a `k`-chunk request writes
`sum(buffers) + (k - 1) * int(sr0 * 0.3)` samples at `sr0`.  (Scenario D
— two 1-second 24000 Hz buffers giving 2.3 s — is the witness.) -/
theorem generate_pause_between_chunks (engines : String → Option EngineSpec)
    (isFile : List Char → Bool) (absJoin : List Char → List Char → List Char)
    (text : List Char) (voicePath : Option (List Char))
    (outputDir : List Char) (engineName : String)
    (outputFilename : Option (List Char)) (engine : EngineSpec)
    (gen : Nat → List Char → Nat × Nat) (sr0 : Nat)
    (hne : strip text ≠ [])
    (heng : engines engineName = some engine)
    (hgen : engine.generateAudio = fun i c => some (gen i c))
    (hload : engine.loadOk = true)
    (hsv : engine.setVoiceOk = true)
    (hv : (engine.requiresVoiceFile && voiceMissing isFile voicePath) = false)
    (huni : ∀ i c, (gen i c).2 = sr0)
    (hmulti : 2 ≤ (chunkText (strip text) engine.chunkChars).length) :
    generate engines isFile absJoin text voicePath outputDir engineName
      outputFilename =
      (.ok (absJoin outputDir (normFname outputFilename)),
       preEvents engine outputDir ++
         (List.range' 1
           (chunkText (strip text) engine.chunkChars).length).map
             Event.genAudioCall ++
         [Event.fileWrite (absJoin outputDir (normFname outputFilename))
           ((bufLens gen 1 (chunkText (strip text) engine.chunkChars)).sum +
             ((chunkText (strip text) engine.chunkChars).length - 1) *
               (3 * sr0 / 10))
           sr0]) := by
  have hne' : chunkText (strip text) engine.chunkChars ≠ [] := by
    intro hx
    rw [hx] at hmulti
    simp at hmulti
  rw [generate_success_run engines isFile absJoin text voicePath outputDir
    engineName outputFilename engine gen hne heng hgen hload hsv hv]
  rw [expectedParts_sum gen sr0 huni
    (chunkText (strip text) engine.chunkChars) 1]
  rw [lastRate_uniform gen sr0 huni
    (chunkText (strip text) engine.chunkChars) 1 24000 hne']

/-- Witness for C9 — Scenario D: two chunks, 1-second 24000 Hz buffers,
total 55200 samples at 24000 Hz, i.e. 2.3 seconds. -/
theorem generate_pause_between_chunks_witness :
    strip "Hello you. Goodbye.".data ≠ [] ∧
    (∀ i c, (stubGen i c).2 = 24000) ∧
    2 ≤ (chunkText (strip "Hello you. Goodbye.".data)
      stubEngine.chunkChars).length ∧
    generate stubEngines noFile slashJoin "Hello you. Goodbye.".data
      Option.none "out".data "chatterbox" Option.none =
      (.ok (slashJoin "out".data (normFname Option.none)),
       preEvents stubEngine "out".data ++
         (List.range' 1
           (chunkText (strip "Hello you. Goodbye.".data)
             stubEngine.chunkChars).length).map Event.genAudioCall ++
         [Event.fileWrite (slashJoin "out".data (normFname Option.none))
           ((bufLens stubGen 1 (chunkText (strip "Hello you. Goodbye.".data)
               stubEngine.chunkChars)).sum +
             ((chunkText (strip "Hello you. Goodbye.".data)
               stubEngine.chunkChars).length - 1) * (3 * 24000 / 10))
           24000]) ∧
    (bufLens stubGen 1 (chunkText (strip "Hello you. Goodbye.".data)
        stubEngine.chunkChars)).sum +
      ((chunkText (strip "Hello you. Goodbye.".data)
        stubEngine.chunkChars).length - 1) * (3 * 24000 / 10) = 55200 ∧
    (55200 : ℚ) / 24000 = 23 / 10 :=
  ⟨by decide, fun i c => rfl, by decide,
   generate_pause_between_chunks stubEngines noFile slashJoin
     "Hello you. Goodbye.".data Option.none "out".data "chatterbox"
     Option.none stubEngine stubGen 24000 (by decide) rfl rfl rfl rfl rfl
     (fun i c => rfl) (by decide),
   by decide, by norm_num⟩

/-- C10: the output filename is normalised — a missing name defaults to
"output.wav", a name whose lowercasing does not end in ".wav" gets
".wav" appended — and the value returned on success is exactly that
normalised name joined (absolutely) to the output directory. -/
theorem generate_output_filename (engines : String → Option EngineSpec)
    (isFile : List Char → Bool) (absJoin : List Char → List Char → List Char)
    (text : List Char) (voicePath : Option (List Char))
    (outputDir : List Char) (engineName : String)
    (outputFilename : Option (List Char)) (p : List Char)
    (evs : List Event) (f : List Char)
    (h : generate engines isFile absJoin text voicePath outputDir engineName
      outputFilename = (.ok p, evs)) :
    p = absJoin outputDir (normFname outputFilename) ∧
    normFname Option.none = "output.wav".data ∧
    (f ≠ [] → endsWithWav f = true → normFname (some f) = f) ∧
    (f ≠ [] → endsWithWav f = false →
      normFname (some f) = f ++ ".wav".data) := by
  refine ⟨generate_ok_path engines isFile absJoin text voicePath outputDir
    engineName outputFilename p evs h, by decide, ?_, ?_⟩
  · intro hne hw
    have hfe : f.isEmpty = false := by
      cases f with
      | nil => exact absurd rfl hne
      | cons a t => rfl
    unfold normFname
    simp [hfe, hw]
  · intro hne hw
    have hfe : f.isEmpty = false := by
      cases f with
      | nil => exact absurd rfl hne
      | cons a t => rfl
    unfold normFname
    simp [hfe, hw]

/-- Witness for C10: a successful run with filename "Story" returns
out/Story.wav. -/
theorem generate_output_filename_witness :
    generate stubEngines noFile slashJoin "Hello.".data Option.none
      "out".data "chatterbox" (some "Story".data) =
      (.ok "out/Story.wav".data,
       [.makeDirs "out".data, .loadCall, .genAudioCall 1,
        .fileWrite "out/Story.wav".data 24000 24000]) ∧
    ("out/Story.wav".data =
      slashJoin "out".data (normFname (some "Story".data)) ∧
     normFname Option.none = "output.wav".data ∧
     ("Story".data ≠ [] → endsWithWav "Story".data = true →
       normFname (some "Story".data) = "Story".data) ∧
     ("Story".data ≠ [] → endsWithWav "Story".data = false →
       normFname (some "Story".data) = "Story".data ++ ".wav".data)) :=
  ⟨rfl,
   generate_output_filename stubEngines noFile slashJoin "Hello.".data
     Option.none "out".data "chatterbox" (some "Story".data)
     "out/Story.wav".data
     [.makeDirs "out".data, .loadCall, .genAudioCall 1,
      .fileWrite "out/Story.wav".data 24000 24000] "Story".data rfl⟩

end Read4me
